import Mathlib

/-!
Verification of the mosaic-compositing material of this repository
(docs/src/examples: the `CustomFourthBandH` pixel-selection class, the
`custom_tiler` helper, the `mosaic_reader` invocations, and the tornado
`TileHandler._get_tile` demo handlers).

The shallow embedding follows the notebooks' numpy code.  A tile is an
`ImageData`-shaped value: one 2-D rational array per band plus a single 2-D
validity mask shared by every band (an `ImageData` mask is per pixel; numpy
broadcasts it across the band axis when the masked array is built, so the
embedding works with the shared per-pixel mask directly).  The numpy masked
array convention is kept: `mask = true` means the pixel is masked, i.e.
INVALID; `mask = false` means valid.

The mosaic orchestration (`mosaic_reader`) and the built-in pixel-selection
methods (`FirstMethod`, `HighestMethod`, `LowestMethod`, `MeanMethod`,
`StdevMethod`, `CountMethod`) are used by the notebooks but their code is not
part of this repository's files; those definitions are modelled from the
specification and are marked `Modelled from the spec:` in their doc comments.
-/

/-- A masked tile: `bands` 2-D data planes of size `rows` by `cols` over the
rationals, plus one shared 2-D validity mask.  `mask i j = true` means the
pixel `(i, j)` is masked (invalid / nodata), the numpy masked-array
convention. -/
@[ext]
structure MaskedTile (bands rows cols : Nat) where
  data : Fin bands → Fin rows → Fin cols → ℚ
  mask : Fin rows → Fin cols → Bool
  deriving DecidableEq

namespace CustomFourthBandH

/-- Embedding of `CustomFourthBandH.feed` (Using-nonEarth-dataset notebook,
mosaic section).  The selector state is `self.mosaic`, `none` before the first
feed.  Source:

    if self.mosaic is None:
        self.mosaic = array
        return
    pidex = (
        numpy.bitwise_and(array.data[-1] > self.mosaic.data[-1], ~array.mask)
        | self.mosaic.mask
    )
    mask = numpy.where(pidex, array.mask, self.mosaic.mask)
    self.mosaic = numpy.ma.where(pidex, array, self.mosaic)
    self.mosaic.mask = mask

`array.data[-1]` is the last (decision) band; the comparison is on raw data,
and the per-pixel mask plays the role of the broadcast 3-D numpy mask.
`merge` is the not-None branch of `feed`; `feed` itself follows below. -/
def merge {b r c : Nat} (m array : MaskedTile (b + 1) r c) :
    MaskedTile (b + 1) r c :=
  let pidex : Fin r → Fin c → Bool := fun i j =>
    (decide (m.data (Fin.last b) i j < array.data (Fin.last b) i j)
        && !array.mask i j)
      || m.mask i j
  { data := fun bi i j => if pidex i j then array.data bi i j else m.data bi i j
    mask := fun i j => if pidex i j then array.mask i j else m.mask i j }

def feed {b r c : Nat} (mosaic : Option (MaskedTile (b + 1) r c))
    (array : MaskedTile (b + 1) r c) : Option (MaskedTile (b + 1) r c) :=
  match mosaic with
  | none => some array
  | some m => some (merge m array)

/-- The selector state after feeding a list of tiles in order, starting from
the fresh state (`self.mosaic = None`). -/
def feedList {b r c : Nat} (tiles : List (MaskedTile (b + 1) r c)) :
    Option (MaskedTile (b + 1) r c) :=
  tiles.foldl feed none

/-- Embedding of the `CustomFourthBandH.data` property.  Source:

    if self.mosaic is not None:
        return self.mosaic[:-1].copy()
    return None

`self.mosaic[:-1]` drops the last (decision) band and keeps the mask. -/
def data {b r c : Nat} (mosaic : Option (MaskedTile (b + 1) r c)) :
    Option (MaskedTile b r c) :=
  match mosaic with
  | none => none
  | some m =>
    some
      { data := fun bi i j => m.data bi.castSucc i j
        mask := m.mask }

end CustomFourthBandH

/-- Embedding of the notebook's `custom_tiler`: read the 3-band `visual` asset
and a 1-band NDVI expression tile, and return an `ImageData` stacking the two
(`numpy.concatenate((img.data, ndvi.data))`) under the visual tile's mask. -/
def custom_tiler {r c : Nat} (img : MaskedTile 3 r c) (ndvi : MaskedTile 1 r c) :
    MaskedTile 4 r c :=
  { data := fun bi i j =>
      if h : (bi : Nat) < 3 then img.data ⟨bi, h⟩ i j else ndvi.data 0 i j
    mask := img.mask }

/-! ### Built-in pixel-selection policies, modelled from the specification

The built-in methods are only invoked by the notebooks
(`defaults.MeanMethod()`, `defaults.StdevMethod()`, the default First
behaviour of `mosaic_reader`); their code is not among this repository's
files, so they are modelled from the policy table of §4.1 of the spec. -/

/-- Modelled from the spec: the First policy's fresh accumulator — an
ImageTile-shaped accumulator whose mask is all-invalid (so `result()` is
callable before any `feed`) with a sentinel data value. -/
def firstInit (b r c : Nat) : MaskedTile b r c :=
  { data := fun _ _ _ => 0
    mask := fun _ _ => true }

/-- Modelled from the spec: First policy feed — "for each pixel, keep the
first-fed tile's value where that tile's mask is valid and the accumulator's
mask is not yet valid there; once a pixel is valid in the accumulator it is
never overwritten". -/
def firstFeed {b r c : Nat} (acc t : MaskedTile b r c) : MaskedTile b r c :=
  { data := fun bi i j =>
      if acc.mask i j && !t.mask i j then t.data bi i j else acc.data bi i j
    mask := fun i j => acc.mask i j && t.mask i j }

/-- Modelled from the spec: First is a coverage-completable policy — `is_done`
reports true once the accumulator's mask is fully valid. -/
def firstIsDone {b r c : Nat} (acc : MaskedTile b r c) : Bool :=
  decide (∀ i j, acc.mask i j = false)

/-- Modelled from the spec: Highest policy feed — "for each pixel, keep the
maximum band-value (comparison band configurable; default = last band) among
all tiles where valid; ties broken by first-fed". -/
def highestFeed {b r c : Nat} (acc t : MaskedTile (b + 1) r c) :
    MaskedTile (b + 1) r c :=
  { data := fun bi i j =>
      if !t.mask i j
          && (acc.mask i j
            || decide (acc.data (Fin.last b) i j < t.data (Fin.last b) i j)) then
        t.data bi i j
      else acc.data bi i j
    mask := fun i j => acc.mask i j && t.mask i j }

/-- Modelled from the spec: Lowest policy feed, symmetric to Highest with the
minimum. -/
def lowestFeed {b r c : Nat} (acc t : MaskedTile (b + 1) r c) :
    MaskedTile (b + 1) r c :=
  { data := fun bi i j =>
      if !t.mask i j
          && (acc.mask i j
            || decide (t.data (Fin.last b) i j < acc.data (Fin.last b) i j)) then
        t.data bi i j
      else acc.data bi i j
    mask := fun i j => acc.mask i j && t.mask i j }

/-- Modelled from the spec: Mean policy accumulator — per-pixel running sum
(per band) and per-pixel count of valid contributions. -/
@[ext]
structure MeanState (b r c : Nat) where
  total : Fin b → Fin r → Fin c → ℚ
  count : Fin r → Fin c → Nat
  deriving DecidableEq

/-- Modelled from the spec: fresh Mean accumulator (no contributions seen). -/
def meanInit (b r c : Nat) : MeanState b r c :=
  { total := fun _ _ _ => 0
    count := fun _ _ => 0 }

/-- Modelled from the spec: Mean policy feed — "per pixel, running arithmetic
mean over all tiles where valid"; a tile contributes at the pixels where its
mask is valid. -/
def meanFeed {b r c : Nat} (s : MeanState b r c) (t : MaskedTile b r c) :
    MeanState b r c :=
  { total := fun bi i j =>
      if t.mask i j then s.total bi i j else s.total bi i j + t.data bi i j
    count := fun i j => if t.mask i j then s.count i j else s.count i j + 1 }

/-- Modelled from the spec: accumulating statistical policies are never done
early. -/
def meanIsDone {b r c : Nat} (_ : MeanState b r c) : Bool :=
  false

/-- Modelled from the spec: Mean policy result — per-pixel arithmetic mean of
the valid contributions; "pixel invalid in output iff invalid in every tile",
and a zero-contribution pixel keeps a sentinel value instead of dividing by
zero. -/
def meanResult {b r c : Nat} (s : MeanState b r c) : MaskedTile b r c :=
  { data := fun bi i j =>
      if s.count i j = 0 then 0 else s.total bi i j / (s.count i j : ℚ)
    mask := fun i j => decide (s.count i j = 0) }

/-- Modelled from the spec: Stdev policy accumulator — incremental two-moment
per-pixel state (sum, sum of squares, count). -/
@[ext]
structure StdevState (b r c : Nat) where
  total : Fin b → Fin r → Fin c → ℚ
  sumsq : Fin b → Fin r → Fin c → ℚ
  count : Fin r → Fin c → Nat
  deriving DecidableEq

/-- Modelled from the spec: Stdev policy feed — accumulate sum, sum of squares
and count at the pixels where the tile is valid. -/
def stdevFeed {b r c : Nat} (s : StdevState b r c) (t : MaskedTile b r c) :
    StdevState b r c :=
  { total := fun bi i j =>
      if t.mask i j then s.total bi i j else s.total bi i j + t.data bi i j
    sumsq := fun bi i j =>
      if t.mask i j then s.sumsq bi i j else s.sumsq bi i j + t.data bi i j * t.data bi i j
    count := fun i j => if t.mask i j then s.count i j else s.count i j + 1 }

/-- Modelled from the spec: Count policy accumulator — "per pixel, number of
tiles in which that pixel was valid". -/
@[ext]
structure CountState (r c : Nat) where
  count : Fin r → Fin c → Nat
  deriving DecidableEq

/-- Modelled from the spec: Count policy feed. -/
def countFeed {b r c : Nat} (s : CountState r c) (t : MaskedTile b r c) :
    CountState r c :=
  { count := fun i j => if t.mask i j then s.count i j else s.count i j + 1 }

/-! ### Mosaic orchestration, modelled from the specification

`mosaic_reader` is only called by the notebooks; its code is not among this
repository's files, so the orchestration is modelled from §4.2 of the spec:
partition the assets into batches of size at most `max_concurrency`, resolve
each batch, feed the successful tiles to the selector in original sequence
order, skip outside-bounds and failed assets, and stop at a batch boundary
once the selector reports done. -/

/-- Modelled from the spec: outcome of fetching one asset (§6 tile-source
capability): an ImageTile, an outside-bounds signal, or a fetch error. -/
inductive FetchOutcome (τ : Type) where
  | success (tile : τ)
  | outsideBounds
  | fetchError
  deriving DecidableEq

/-- Whether a fetch outcome is a success. -/
def FetchOutcome.isSuccess {τ : Type} : FetchOutcome τ → Bool
  | .success _ => true
  | .outsideBounds => false
  | .fetchError => false

/-- Fuelled batch partition (the fuel is the list length, so the recursion is
structural); `chunkList` below instantiates it. -/
def chunkGo (n : Nat) : Nat → List α → List (List α)
  | 0, _ => []
  | _, [] => []
  | fuel + 1, l => l.take n :: chunkGo n fuel (l.drop n)

/-- Modelled from the spec: §4.2 step 1 — partition the asset sequence into
batches of size at most `n` (`max_concurrency`), preserving order. -/
def chunkList (n : Nat) (l : List α) : List (List α) :=
  chunkGo n l.length l

/-- Modelled from the spec: §4.2 step 3 — process the resolved assets of one
batch in original sequence order: feed successes to the selector and record
their asset ids; skip outside-bounds and failed assets without aborting. -/
def feedBatch {α τ σ : Type} (feed : σ → τ → σ) (fetch : α → FetchOutcome τ) :
    σ → List α → σ × List α
  | s, [] => (s, [])
  | s, a :: rest =>
    match fetch a with
    | .success t =>
      let next := feedBatch feed fetch (feed s t) rest
      (next.1, a :: next.2)
    | .outsideBounds => feedBatch feed fetch s rest
    | .fetchError => feedBatch feed fetch s rest

/-- Modelled from the spec: §4.2 steps 2-5 — process the batches in order,
checking `is_done` after each batch and stopping early when it reports
true. -/
def runBatches {α τ σ : Type} (feed : σ → τ → σ) (isDone : σ → Bool)
    (fetch : α → FetchOutcome τ) : σ → List (List α) → σ × List α
  | s, [] => (s, [])
  | s, batch :: rest =>
    let fed := feedBatch feed fetch s batch
    if isDone fed.1 then fed
    else
      let tail := runBatches feed isDone fetch fed.1 rest
      (tail.1, fed.2 ++ tail.2)

/-- Modelled from the spec: §4.2 `composite` (the notebooks' `mosaic_reader`):
batch the assets by `max_concurrency`, run the batches against the selector,
and return the final selector state together with `assets_used`. -/
def composite {α τ σ : Type} (assets : List α) (fetch : α → FetchOutcome τ)
    (feed : σ → τ → σ) (isDone : σ → Bool) (s0 : σ) (maxConcurrency : Nat) :
    σ × List α :=
  runBatches feed isDone fetch s0 (chunkList maxConcurrency assets)

/-! ### Demo tile servers -/

/-- Outcome of `src.tile(x, y, z)` inside the handlers: either the read
raises `TileOutsideBounds` or it yields an image. -/
inductive TileReadOutcome (ι : Type) where
  | tileOutsideBounds
  | ok (img : ι)
  deriving DecidableEq

/-- Embedding of `TileHandler._get_tile` of the Using-tms notebook: the tile
read is attempted; `TileOutsideBounds` is turned into an `HTTPError(404)`
response with no image body; a successful read is rendered to PNG bytes. -/
def TileHandler_get_tile_tms {ι π : Type} (render : ι → π)
    (read : TileReadOutcome ι) : Except Nat π :=
  match read with
  | .tileOutsideBounds => .error 404
  | .ok img => .ok (render img)

/-- Embedding of `TileHandler._get_tile` of the Using-nonEarth-dataset
notebook: identical error handling, with a `post_process` step applied before
rendering. -/
def TileHandler_get_tile_nonearth {ι κ π : Type} (post_process : ι → κ)
    (render : κ → π) (read : TileReadOutcome ι) : Except Nat π :=
  match read with
  | .tileOutsideBounds => .error 404
  | .ok img => .ok (render (post_process img))

/-! ### Validity-count helpers -/

/-- Number of pixels a boolean per-pixel predicate marks `true`. -/
def validCount {r c : Nat} (valid : Fin r → Fin c → Bool) : Nat :=
  (Finset.univ.filter fun p : Fin r × Fin c => valid p.1 p.2 = true).card

/-- The valid (unmasked) pixels of a tile. -/
def tileValid {b r c : Nat} (t : MaskedTile b r c) : Fin r → Fin c → Bool :=
  fun i j => !t.mask i j

/-- The valid pixels of a Mean accumulator: at least one contribution seen. -/
def meanValid {b r c : Nat} (s : MeanState b r c) : Fin r → Fin c → Bool :=
  fun i j => decide (0 < s.count i j)

/-- The valid pixels of a Stdev accumulator. -/
def stdevValid {b r c : Nat} (s : StdevState b r c) : Fin r → Fin c → Bool :=
  fun i j => decide (0 < s.count i j)

/-- The valid pixels of a Count accumulator. -/
def countValid {r c : Nat} (s : CountState r c) : Fin r → Fin c → Bool :=
  fun i j => decide (0 < s.count i j)

/-- The valid pixels of a `CustomFourthBandH` state (`none`: nothing valid). -/
def mosaicValid {b r c : Nat} : Option (MaskedTile (b + 1) r c) → Fin r → Fin c → Bool
  | none => fun _ _ => false
  | some m => fun i j => !m.mask i j

/-! ### Concrete tiles and fetch assignments used by the test scenarios -/

/-- Spec §8 scenario, tile A: 4 by 4, single band, all pixels 10, all valid. -/
def tileA : MaskedTile 1 4 4 :=
  { data := fun _ _ _ => 10, mask := fun _ _ => false }

/-- Spec §8 scenario, tile B: all pixels 20, all valid. -/
def tileB : MaskedTile 1 4 4 :=
  { data := fun _ _ _ => 20, mask := fun _ _ => false }

/-- Spec §8 scenario, tile C: all-invalid mask. -/
def tileC : MaskedTile 1 4 4 :=
  { data := fun _ _ _ => 0, mask := fun _ _ => true }

/-- Spec §8 scenario fetch assignment: assets 0, 1, 2 resolve to tiles A, B,
C. -/
def scenarioFetch : Nat → FetchOutcome (MaskedTile 1 4 4)
  | 0 => .success tileA
  | 1 => .success tileB
  | 2 => .success tileC
  | _ => .fetchError

/-- A fully valid one-pixel single-band tile. -/
def unitTile : MaskedTile 1 1 1 :=
  { data := fun _ _ _ => 1, mask := fun _ _ => false }

/-- A fetch assignment where every asset succeeds with `unitTile`. -/
def unitFetch : Nat → FetchOutcome (MaskedTile 1 1 1) :=
  fun _ => .success unitTile

/-- Spec §8 partial-failure scenario fetch assignment over assets 0..4:
assets 1 and 4 raise fetch errors, asset 2 is outside bounds, assets 0 and 3
succeed. -/
def partialFetch : Nat → FetchOutcome (MaskedTile 1 1 1)
  | 0 => .success unitTile
  | 1 => .fetchError
  | 2 => .outsideBounds
  | 3 => .success unitTile
  | _ => .fetchError

/-- A fetch assignment where every asset fails. -/
def failFetch : Nat → FetchOutcome (MaskedTile 1 1 1) :=
  fun _ => .fetchError

/-- A one-pixel all-invalid two-band tile. -/
def invalidTile2 : MaskedTile 2 1 1 :=
  { data := fun _ _ _ => 0, mask := fun _ _ => true }

/-- A one-pixel valid two-band tile whose decision band holds 5. -/
def loTile2 : MaskedTile 2 1 1 :=
  { data := fun _ _ _ => 5, mask := fun _ _ => false }

/-- A one-pixel valid two-band tile whose decision band holds 7. -/
def hiTile2 : MaskedTile 2 1 1 :=
  { data := fun _ _ _ => 7, mask := fun _ _ => false }

/-- A one-pixel 3-band visual tile, all valid. -/
def visualTile : MaskedTile 3 1 1 :=
  { data := fun _ _ _ => 3, mask := fun _ _ => false }

/-- A one-pixel 1-band NDVI tile, all valid. -/
def ndviTile : MaskedTile 1 1 1 :=
  { data := fun _ _ _ => 1 / 2, mask := fun _ _ => false }

/-- A one-pixel all-invalid single-band tile. -/
def invalidTile1 : MaskedTile 1 1 1 :=
  { data := fun _ _ _ => 0, mask := fun _ _ => true }

/-!
## Theorems

First a few helper lemmas characterising `CustomFourthBandH.merge` pixelwise,
then the claims.
-/

namespace CustomFourthBandH

/-- Where the accumulator is invalid, `merge` takes the incoming tile's value
and mask unconditionally. -/
theorem merge_acc_invalid {b r c : Nat} (m t : MaskedTile (b + 1) r c)
    (i : Fin r) (j : Fin c) (h : m.mask i j = true) :
    (merge m t).mask i j = t.mask i j ∧
      ∀ bi, (merge m t).data bi i j = t.data bi i j := by
  constructor
  · simp [merge, h]
  · intro bi
    simp [merge, h]

/-- Where the accumulator is valid and the incoming tile is invalid, `merge`
keeps the accumulator. -/
theorem merge_arr_invalid {b r c : Nat} (m t : MaskedTile (b + 1) r c)
    (i : Fin r) (j : Fin c) (h : m.mask i j = false) (ht : t.mask i j = true) :
    (merge m t).mask i j = false ∧
      ∀ bi, (merge m t).data bi i j = m.data bi i j := by
  constructor
  · simp [merge, h, ht]
  · intro bi
    simp [merge, h, ht]

/-- Where both are valid and the incoming tile's decision band strictly
exceeds the accumulator's, `merge` takes the incoming tile. -/
theorem merge_lt {b r c : Nat} (m t : MaskedTile (b + 1) r c)
    (i : Fin r) (j : Fin c) (h : m.mask i j = false) (ht : t.mask i j = false)
    (hlt : m.data (Fin.last b) i j < t.data (Fin.last b) i j) :
    (merge m t).mask i j = false ∧
      ∀ bi, (merge m t).data bi i j = t.data bi i j := by
  constructor
  · simp [merge, h, ht, hlt]
  · intro bi
    simp [merge, h, ht, hlt]

/-- Where both are valid and the incoming tile's decision band does not
exceed the accumulator's, `merge` keeps the accumulator (first-fed wins
ties). -/
theorem merge_ge {b r c : Nat} (m t : MaskedTile (b + 1) r c)
    (i : Fin r) (j : Fin c) (h : m.mask i j = false) (ht : t.mask i j = false)
    (hge : t.data (Fin.last b) i j ≤ m.data (Fin.last b) i j) :
    (merge m t).mask i j = false ∧
      ∀ bi, (merge m t).data bi i j = m.data bi i j := by
  have hnlt : ¬ m.data (Fin.last b) i j < t.data (Fin.last b) i j := not_lt.2 hge
  constructor
  · simp [merge, h, ht, hnlt]
  · intro bi
    simp [merge, h, ht, hnlt]

/-- Feeding never empties the selector state. -/
theorem foldl_feed_some {b r c : Nat} (ts : List (MaskedTile (b + 1) r c)) :
    ∀ m, ∃ m2, List.foldl feed (some m) ts = some m2 := by
  induction ts with
  | nil => exact fun m => ⟨m, rfl⟩
  | cons t ts ih =>
    intro m
    exact ih (merge m t)

/-- A nonempty feed history yields a mosaic. -/
theorem feedList_some {b r c : Nat} (tiles : List (MaskedTile (b + 1) r c))
    (h : tiles ≠ []) : ∃ m, feedList tiles = some m := by
  match tiles with
  | [] => exact absurd rfl h
  | t :: ts => exact foldl_feed_some ts t

end CustomFourthBandH

/-- C9: the `CustomFourthBandH` selector's output drops the decision band:
for every nonempty feed history of tiles with `b + 2` bands (at least two),
the `data` property yields a composite with exactly `b + 1` bands — the first
`b + 1` bands of the accumulator under the accumulator's mask; the last
(decision) band never appears in the returned mosaic. -/
theorem data_drops_decision_band (b r c : Nat)
    (tiles : List (MaskedTile (b + 2) r c)) (h : tiles ≠ []) :
    ∃ m, CustomFourthBandH.feedList tiles = some m ∧
      CustomFourthBandH.data (CustomFourthBandH.feedList tiles) =
        some { data := fun bi i j => m.data bi.castSucc i j, mask := m.mask } := by
  obtain ⟨m, hm⟩ := CustomFourthBandH.feedList_some tiles h
  refine ⟨m, hm, ?_⟩
  rw [hm]
  rfl

/-- Witness for C9: a one-tile history produced by `custom_tiler` (3 visual
bands plus the NDVI decision band). -/
theorem data_drops_decision_band_witness :
    ∃ m, CustomFourthBandH.feedList [custom_tiler visualTile ndviTile] = some m ∧
      CustomFourthBandH.data (CustomFourthBandH.feedList [custom_tiler visualTile ndviTile]) =
        some { data := fun bi i j => m.data bi.castSucc i j, mask := m.mask } :=
  data_drops_decision_band 2 1 1 [custom_tiler visualTile ndviTile] (by simp)

/-- Counterexample for C3: after zero feed calls the `CustomFourthBandH`
`data` property yields no composite at all (it is `None`), not an
ImageTile-shaped composite with an all-invalid mask. -/
theorem customFourthBandH_data_zero_feeds_cex :
    ¬ ∃ comp, CustomFourthBandH.data (none : Option (MaskedTile 2 1 1)) = some comp := by
  rintro ⟨comp, hcomp⟩
  simp [CustomFourthBandH.data] at hcomp

/-- C3 (amended): the `CustomFourthBandH` `data` property is callable after
zero feed calls but yields `none` (no image) rather than an all-invalid
composite; the spec-modelled built-in selectors do produce an all-invalid
mask from a fresh accumulator; `data` yields a composite exactly when at
least one tile has been fed. -/
theorem customFourthBandH_data_amended (b r c : Nat) :
    CustomFourthBandH.data (none : Option (MaskedTile (b + 1) r c)) = none ∧
    (∀ i j, (firstInit b r c).mask i j = true) ∧
    (∀ i j, (meanResult (meanInit b r c)).mask i j = true) ∧
    ∀ tiles : List (MaskedTile (b + 1) r c), tiles ≠ [] →
      ∃ comp, CustomFourthBandH.data (CustomFourthBandH.feedList tiles) = some comp := by
  refine ⟨rfl, fun i j => rfl, fun i j => by simp [meanResult, meanInit], ?_⟩
  intro tiles h
  obtain ⟨m, hm⟩ := CustomFourthBandH.feedList_some tiles h
  exact ⟨_, by rw [hm]; rfl⟩

/-- Witness for C3 (amended): a one-tile feed history yields a composite. -/
theorem customFourthBandH_data_amended_witness :
    ∃ comp, CustomFourthBandH.data (CustomFourthBandH.feedList [loTile2]) = some comp :=
  (customFourthBandH_data_amended 1 1 1).2.2.2 [loTile2] (by simp)

/-- Counterexample for C4: feeding an all-invalid tile as the very first tile
is observable for `CustomFourthBandH` — the `data` property changes from
`none` to a composite (with an all-invalid mask), so the feed is not a no-op
contribution there. -/
theorem feed_all_invalid_first_tile_cex :
    CustomFourthBandH.data (CustomFourthBandH.feed none invalidTile2) ≠
      CustomFourthBandH.data (none : Option (MaskedTile 2 1 1)) := by
  simp [CustomFourthBandH.feed, CustomFourthBandH.data]

/-- C4 (amended): feeding a tile whose mask is all-invalid never raises and
is a no-op for the spec-modelled built-in selectors; for `CustomFourthBandH`
it leaves the observable result (validity mask and data at valid pixels)
unchanged whenever at least one tile was fed before, but as the very first
tile it installs the tile as the mosaic, changing the `data` property from
`none` to a composite whose mask is all-invalid. -/
theorem feed_all_invalid_amended (b r c : Nat) :
    (∀ acc t : MaskedTile b r c, (∀ i j, t.mask i j = true) →
      firstFeed acc t = acc) ∧
    (∀ (s : MeanState b r c) (t : MaskedTile b r c), (∀ i j, t.mask i j = true) →
      meanFeed s t = s) ∧
    (∀ (s : StdevState b r c) (t : MaskedTile b r c), (∀ i j, t.mask i j = true) →
      stdevFeed s t = s) ∧
    (∀ (s : CountState r c) (t : MaskedTile b r c), (∀ i j, t.mask i j = true) →
      countFeed s t = s) ∧
    (∀ acc t : MaskedTile (b + 1) r c, (∀ i j, t.mask i j = true) →
      highestFeed acc t = acc) ∧
    (∀ acc t : MaskedTile (b + 1) r c, (∀ i j, t.mask i j = true) →
      lowestFeed acc t = acc) ∧
    (∀ m t : MaskedTile (b + 1) r c, (∀ i j, t.mask i j = true) →
      ∃ m2, CustomFourthBandH.feed (some m) t = some m2 ∧
        (∀ i j, m2.mask i j = m.mask i j) ∧
        (∀ bi i j, m.mask i j = false → m2.data bi i j = m.data bi i j)) ∧
    (∀ t : MaskedTile (b + 1) r c, CustomFourthBandH.feed none t = some t) := by
  refine ⟨?_, ?_, ?_, ?_, ?_, ?_, ?_, fun t => rfl⟩
  · intro acc t h
    refine MaskedTile.ext ?_ ?_
    · funext bi i j
      simp [firstFeed, h i j]
    · funext i j
      simp [firstFeed, h i j]
  · intro s t h
    refine MeanState.ext ?_ ?_
    · funext bi i j
      simp [meanFeed, h i j]
    · funext i j
      simp [meanFeed, h i j]
  · intro s t h
    refine StdevState.ext ?_ ?_ ?_
    · funext bi i j
      simp [stdevFeed, h i j]
    · funext bi i j
      simp [stdevFeed, h i j]
    · funext i j
      simp [stdevFeed, h i j]
  · intro s t h
    refine CountState.ext ?_
    funext i j
    simp [countFeed, h i j]
  · intro acc t h
    refine MaskedTile.ext ?_ ?_
    · funext bi i j
      simp [highestFeed, h i j]
    · funext i j
      simp [highestFeed, h i j]
  · intro acc t h
    refine MaskedTile.ext ?_ ?_
    · funext bi i j
      simp [lowestFeed, h i j]
    · funext i j
      simp [lowestFeed, h i j]
  · intro m t h
    refine ⟨CustomFourthBandH.merge m t, rfl, ?_, ?_⟩
    · intro i j
      cases hm : m.mask i j with
      | true =>
        simp [(CustomFourthBandH.merge_acc_invalid m t i j hm).1, h i j, hm]
      | false =>
        exact (CustomFourthBandH.merge_arr_invalid m t i j hm (h i j)).1
    · intro bi i j hm
      exact (CustomFourthBandH.merge_arr_invalid m t i j hm (h i j)).2 bi

/-- Witness for C4 (amended): feeding an all-invalid tile into a fresh Mean
accumulator leaves it unchanged. -/
theorem feed_all_invalid_amended_witness :
    meanFeed (meanInit 1 1 1) invalidTile1 = meanInit 1 1 1 :=
  (feed_all_invalid_amended 1 1 1).2.1 (meanInit 1 1 1) invalidTile1 (by decide)

/-- C10: in both demo tile servers, a tile read that raises
`TileOutsideBounds` is answered with HTTP status 404 and no image body, and
only a successful tile read reaches the render step, whose PNG bytes are
returned. -/
theorem tile_handler_404 {ι κ π : Type} (render : ι → π) (post_process : ι → κ)
    (render2 : κ → π) (read : TileReadOutcome ι) :
    (read = .tileOutsideBounds →
      TileHandler_get_tile_tms render read = .error 404 ∧
        ∀ p, TileHandler_get_tile_tms render read ≠ .ok p) ∧
    (∀ img, read = .ok img →
      TileHandler_get_tile_tms render read = .ok (render img)) ∧
    (read = .tileOutsideBounds →
      TileHandler_get_tile_nonearth post_process render2 read = .error 404 ∧
        ∀ p, TileHandler_get_tile_nonearth post_process render2 read ≠ .ok p) ∧
    (∀ img, read = .ok img →
      TileHandler_get_tile_nonearth post_process render2 read =
        .ok (render2 (post_process img))) := by
  refine ⟨?_, ?_, ?_, ?_⟩
  · rintro rfl
    exact ⟨rfl, fun p h => by cases h⟩
  · rintro img rfl
    rfl
  · rintro rfl
    exact ⟨rfl, fun p h => by cases h⟩
  · rintro img rfl
    rfl

/-- Witness for C10: the outside-bounds branch at a concrete request. -/
theorem tile_handler_404_witness :
    TileHandler_get_tile_tms (fun n : Nat => n)
      (TileReadOutcome.tileOutsideBounds) = Except.error 404 :=
  ((tile_handler_404 (fun n : Nat => n) (fun n : Nat => n) (fun n : Nat => n)
    TileReadOutcome.tileOutsideBounds).1 rfl).1

/-- Pointwise implication between per-pixel validity predicates gives a
valid-pixel-count inequality. -/
theorem validCount_mono {r c : Nat} {f g : Fin r → Fin c → Bool}
    (h : ∀ i j, f i j = true → g i j = true) : validCount f ≤ validCount g := by
  refine Finset.card_le_card ?_
  intro p hp
  rw [Finset.mem_filter] at hp ⊢
  exact ⟨hp.1, h p.1 p.2 hp.2⟩

/-- C2: coverage monotonicity.  For each selector — the spec-modelled
First/Highest/Lowest/Mean/Stdev/Count and the source's `CustomFourthBandH` —
one feed call never invalidates a valid pixel of the accumulator, and the
number of valid pixels is therefore non-decreasing across successive feed
calls. -/
theorem selectors_coverage_monotone (b r c : Nat) :
    (∀ acc t : MaskedTile b r c,
      (∀ i j, tileValid acc i j = true → tileValid (firstFeed acc t) i j = true) ∧
      validCount (tileValid acc) ≤ validCount (tileValid (firstFeed acc t))) ∧
    (∀ acc t : MaskedTile (b + 1) r c,
      (∀ i j, tileValid acc i j = true → tileValid (highestFeed acc t) i j = true) ∧
      validCount (tileValid acc) ≤ validCount (tileValid (highestFeed acc t))) ∧
    (∀ acc t : MaskedTile (b + 1) r c,
      (∀ i j, tileValid acc i j = true → tileValid (lowestFeed acc t) i j = true) ∧
      validCount (tileValid acc) ≤ validCount (tileValid (lowestFeed acc t))) ∧
    (∀ (s : MeanState b r c) (t : MaskedTile b r c),
      (∀ i j, meanValid s i j = true → meanValid (meanFeed s t) i j = true) ∧
      validCount (meanValid s) ≤ validCount (meanValid (meanFeed s t))) ∧
    (∀ (s : StdevState b r c) (t : MaskedTile b r c),
      (∀ i j, stdevValid s i j = true → stdevValid (stdevFeed s t) i j = true) ∧
      validCount (stdevValid s) ≤ validCount (stdevValid (stdevFeed s t))) ∧
    (∀ (s : CountState r c) (t : MaskedTile b r c),
      (∀ i j, countValid s i j = true → countValid (countFeed s t) i j = true) ∧
      validCount (countValid s) ≤ validCount (countValid (countFeed s t))) ∧
    (∀ (s : Option (MaskedTile (b + 1) r c)) (t : MaskedTile (b + 1) r c),
      (∀ i j, mosaicValid s i j = true →
        mosaicValid (CustomFourthBandH.feed s t) i j = true) ∧
      validCount (mosaicValid s) ≤
        validCount (mosaicValid (CustomFourthBandH.feed s t))) := by
  have hfirst : ∀ acc t : MaskedTile b r c,
      ∀ i j, tileValid acc i j = true → tileValid (firstFeed acc t) i j = true := by
    intro acc t i j h
    simp only [tileValid, Bool.not_eq_true', Bool.not_eq_false] at h ⊢
    simp [firstFeed, h]
  have hhigh : ∀ acc t : MaskedTile (b + 1) r c,
      ∀ i j, tileValid acc i j = true → tileValid (highestFeed acc t) i j = true := by
    intro acc t i j h
    simp only [tileValid, Bool.not_eq_true', Bool.not_eq_false] at h ⊢
    simp [highestFeed, h]
  have hlow : ∀ acc t : MaskedTile (b + 1) r c,
      ∀ i j, tileValid acc i j = true → tileValid (lowestFeed acc t) i j = true := by
    intro acc t i j h
    simp only [tileValid, Bool.not_eq_true', Bool.not_eq_false] at h ⊢
    simp [lowestFeed, h]
  have hmean : ∀ (s : MeanState b r c) (t : MaskedTile b r c),
      ∀ i j, meanValid s i j = true → meanValid (meanFeed s t) i j = true := by
    intro s t i j h
    simp only [meanValid, decide_eq_true_eq] at h ⊢
    by_cases hm : t.mask i j <;> simp [meanFeed, hm] <;> omega
  have hstdev : ∀ (s : StdevState b r c) (t : MaskedTile b r c),
      ∀ i j, stdevValid s i j = true → stdevValid (stdevFeed s t) i j = true := by
    intro s t i j h
    simp only [stdevValid, decide_eq_true_eq] at h ⊢
    by_cases hm : t.mask i j <;> simp [stdevFeed, hm] <;> omega
  have hcount : ∀ (s : CountState r c) (t : MaskedTile b r c),
      ∀ i j, countValid s i j = true → countValid (countFeed s t) i j = true := by
    intro s t i j h
    simp only [countValid, decide_eq_true_eq] at h ⊢
    by_cases hm : t.mask i j <;> simp [countFeed, hm] <;> omega
  have hmosaic : ∀ (s : Option (MaskedTile (b + 1) r c)) (t : MaskedTile (b + 1) r c),
      ∀ i j, mosaicValid s i j = true →
        mosaicValid (CustomFourthBandH.feed s t) i j = true := by
    intro s t i j h
    cases s with
    | none => simp [mosaicValid] at h
    | some m =>
      simp only [mosaicValid, Bool.not_eq_true', Bool.not_eq_false] at h
      show mosaicValid (some (CustomFourthBandH.merge m t)) i j = true
      simp only [mosaicValid, Bool.not_eq_true', Bool.not_eq_false]
      cases ht : t.mask i j with
      | true => exact (CustomFourthBandH.merge_arr_invalid m t i j h ht).1
      | false =>
        rcases le_or_lt (t.data (Fin.last b) i j) (m.data (Fin.last b) i j) with hle | hlt
        · exact (CustomFourthBandH.merge_ge m t i j h ht hle).1
        · exact (CustomFourthBandH.merge_lt m t i j h ht hlt).1
  exact ⟨fun acc t => ⟨hfirst acc t, validCount_mono (hfirst acc t)⟩,
    fun acc t => ⟨hhigh acc t, validCount_mono (hhigh acc t)⟩,
    fun acc t => ⟨hlow acc t, validCount_mono (hlow acc t)⟩,
    fun s t => ⟨hmean s t, validCount_mono (hmean s t)⟩,
    fun s t => ⟨hstdev s t, validCount_mono (hstdev s t)⟩,
    fun s t => ⟨hcount s t, validCount_mono (hcount s t)⟩,
    fun s t => ⟨hmosaic s t, validCount_mono (hmosaic s t)⟩⟩

/-- Witness for C2: a pixel valid in a `CustomFourthBandH` accumulator stays
valid after feeding a further (here all-invalid) tile. -/
theorem selectors_coverage_monotone_witness :
    mosaicValid (CustomFourthBandH.feed (some loTile2) invalidTile2) 0 0 = true :=
  ((selectors_coverage_monotone 1 1 1).2.2.2.2.2.2 (some loTile2) invalidTile2).1
    0 0 (by decide)

/-- Concatenating the batches of `chunkGo` restores the list (fuelled form). -/
theorem chunkGo_join {α : Type} (n : Nat) (hn : 1 ≤ n) :
    ∀ (fuel : Nat) (l : List α), l.length ≤ fuel → (chunkGo n fuel l).flatten = l := by
  intro fuel
  induction fuel with
  | zero =>
    intro l hl
    have : l = [] := List.eq_nil_of_length_eq_zero (Nat.le_zero.mp hl)
    subst this
    rfl
  | succ fuel ih =>
    intro l hl
    match l with
    | [] => rfl
    | a :: rest =>
      have hstep : chunkGo n (fuel + 1) (a :: rest) =
          (a :: rest).take n :: chunkGo n fuel ((a :: rest).drop n) := rfl
      rw [hstep, List.flatten_cons, ih ((a :: rest).drop n) ?_, List.take_append_drop]
      rw [List.length_drop]
      simp only [List.length_cons] at hl ⊢
      omega

/-- Batching by a positive `max_concurrency` partitions the asset sequence:
joining the batches restores it. -/
theorem chunkList_join {α : Type} (n : Nat) (hn : 1 ≤ n) (l : List α) :
    (chunkList n l).flatten = l :=
  chunkGo_join n hn l.length l le_rfl

/-- The assets recorded by one batch are exactly its successful fetches, in
original order. -/
theorem feedBatch_snd {α τ σ : Type} (feed : σ → τ → σ) (fetch : α → FetchOutcome τ) :
    ∀ (l : List α) (s : σ),
      (feedBatch feed fetch s l).2 = l.filter fun a => (fetch a).isSuccess := by
  intro l
  induction l with
  | nil => intro s; rfl
  | cons a rest ih =>
    intro s
    cases hfa : fetch a with
    | success t => simp [feedBatch, hfa, FetchOutcome.isSuccess, List.filter_cons, ih]
    | outsideBounds => simp [feedBatch, hfa, FetchOutcome.isSuccess, List.filter_cons, ih]
    | fetchError => simp [feedBatch, hfa, FetchOutcome.isSuccess, List.filter_cons, ih]

/-- Feeding a concatenation of asset lists is feeding one after the other. -/
theorem feedBatch_append {α τ σ : Type} (feed : σ → τ → σ) (fetch : α → FetchOutcome τ) :
    ∀ (l1 l2 : List α) (s : σ),
      feedBatch feed fetch s (l1 ++ l2) =
        ((feedBatch feed fetch (feedBatch feed fetch s l1).1 l2).1,
          (feedBatch feed fetch s l1).2 ++
            (feedBatch feed fetch (feedBatch feed fetch s l1).1 l2).2) := by
  intro l1
  induction l1 with
  | nil => intro l2 s; simp [feedBatch]
  | cons a rest ih =>
    intro l2 s
    cases hfa : fetch a with
    | success t => simp [feedBatch, hfa, ih]
    | outsideBounds => simp [feedBatch, hfa, ih]
    | fetchError => simp [feedBatch, hfa, ih]

/-- When the selector never reports done, running the batches is the same as
feeding the whole joined sequence. -/
theorem runBatches_no_done {α τ σ : Type} (feed : σ → τ → σ) (isDone : σ → Bool)
    (fetch : α → FetchOutcome τ) (hdone : ∀ s, isDone s = false) :
    ∀ (bs : List (List α)) (s : σ),
      runBatches feed isDone fetch s bs = feedBatch feed fetch s bs.flatten := by
  intro bs
  induction bs with
  | nil => intro s; rfl
  | cons batch rest ih =>
    intro s
    simp [runBatches, hdone, ih, List.flatten_cons, feedBatch_append]

/-- The batches actually processed form a prefix of the batch list, and the
recorded assets are those of this prefix. -/
theorem runBatches_processed {α τ σ : Type} (feed : σ → τ → σ) (isDone : σ → Bool)
    (fetch : α → FetchOutcome τ) :
    ∀ (bs : List (List α)) (s : σ),
      ∃ done rest, bs = done ++ rest ∧
        (runBatches feed isDone fetch s bs).2 = (feedBatch feed fetch s done.flatten).2 := by
  intro bs
  induction bs with
  | nil => intro s; exact ⟨[], [], rfl, rfl⟩
  | cons batch rest ih =>
    intro s
    by_cases hd : isDone (feedBatch feed fetch s batch).1
    · refine ⟨[batch], rest, rfl, ?_⟩
      simp [runBatches, hd, List.flatten_cons]
    · obtain ⟨done, rest2, hsplit, hval⟩ := ih (feedBatch feed fetch s batch).1
      refine ⟨batch :: done, rest2, by simp [hsplit], ?_⟩
      simp [runBatches, hd, hval, List.flatten_cons, feedBatch_append]

/-- A batch with no successful fetch leaves the selector state untouched and
records nothing. -/
theorem feedBatch_no_success {α τ σ : Type} (feed : σ → τ → σ)
    (fetch : α → FetchOutcome τ) :
    ∀ (l : List α) (s : σ), (∀ a ∈ l, (fetch a).isSuccess = false) →
      feedBatch feed fetch s l = (s, []) := by
  intro l
  induction l with
  | nil => intro s _; rfl
  | cons a rest ih =>
    intro s h
    cases hfa : fetch a with
    | success t =>
      have := h a (List.mem_cons_self a rest)
      rw [hfa] at this
      simp [FetchOutcome.isSuccess] at this
    | outsideBounds =>
      simpa [feedBatch, hfa] using ih s fun x hx => h x (List.mem_cons_of_mem a hx)
    | fetchError =>
      simpa [feedBatch, hfa] using ih s fun x hx => h x (List.mem_cons_of_mem a hx)

/-- If every fetch of every batch fails or is outside bounds, the whole run
returns the initial state and records nothing. -/
theorem runBatches_no_success {α τ σ : Type} (feed : σ → τ → σ) (isDone : σ → Bool)
    (fetch : α → FetchOutcome τ) :
    ∀ (bs : List (List α)) (s : σ),
      (∀ batch ∈ bs, ∀ a ∈ batch, (fetch a).isSuccess = false) →
      runBatches feed isDone fetch s bs = (s, []) := by
  intro bs
  induction bs with
  | nil => intro s _; rfl
  | cons batch rest ih =>
    intro s h
    have hb := feedBatch_no_success feed fetch batch s
      (h batch (List.mem_cons_self batch rest))
    have hr := ih s fun x hx a ha => h x (List.mem_cons_of_mem batch hx) a ha
    simp [runBatches, hb, hr]

/-- C5: `assets_used` of the composite operation contains exactly the asset
identifiers whose fetch succeeded among the assets actually processed (a
prefix of the asset sequence, the whole sequence when the selector never
reports done), in original asset-sequence order; fetch errors and
outside-bounds signals are skipped without aborting the operation and never
appear in `assets_used`. -/
theorem composite_assets_used {α τ σ : Type} (assets : List α)
    (fetch : α → FetchOutcome τ) (feed : σ → τ → σ) (isDone : σ → Bool) (s0 : σ)
    (n : Nat) (hn : 1 ≤ n) :
    (∃ fed rest, fed ++ rest = assets ∧
      (composite assets fetch feed isDone s0 n).2 =
        fed.filter fun a => (fetch a).isSuccess) ∧
    ((∀ s, isDone s = false) →
      (composite assets fetch feed isDone s0 n).2 =
        assets.filter fun a => (fetch a).isSuccess) := by
  constructor
  · obtain ⟨done, rest, hsplit, hval⟩ :=
      runBatches_processed feed isDone fetch (chunkList n assets) s0
    refine ⟨done.flatten, rest.flatten, ?_, ?_⟩
    · rw [← List.flatten_append, ← hsplit, chunkList_join n hn]
    · rw [composite, hval, feedBatch_snd]
  · intro hdone
    rw [composite, runBatches_no_done feed isDone fetch hdone,
      chunkList_join n hn, feedBatch_snd]

/-- Witness for C5: the spec §8 partial-failure scenario — five assets, two
fetch errors and one outside-bounds, with a never-done selector — records
exactly the successful assets 0 and 3 in order. -/
theorem composite_assets_used_witness :
    (composite [0, 1, 2, 3, 4] partialFetch meanFeed meanIsDone
      (meanInit 1 1 1) 2).2 = [0, 3] := by
  have h := (composite_assets_used [0, 1, 2, 3, 4] partialFetch meanFeed meanIsDone
    (meanInit 1 1 1) 2 (by decide)).2 fun s => rfl
  rw [h]
  rfl

/-- Counterexample for C6: with the First selector (done on full coverage),
two fully valid assets and the same fetch outcomes, `max_concurrency = 1`
uses only the first asset while `max_concurrency = 2` uses both — the
results are not bit-identical across `max_concurrency` values, because
`is_done` is only checked at batch boundaries. -/
theorem composite_concurrency_cex :
    (composite [0, 1] unitFetch firstFeed firstIsDone (firstInit 1 1 1) 1).2 ≠
      (composite [0, 1] unitFetch firstFeed firstIsDone (firstInit 1 1 1) 2).2 := by
  decide

/-- C6 (amended): the composite operation is a pure function of the asset
sequence and the per-asset outcomes (bit-identical across repeated runs), and
its result is identical across every `max_concurrency ≥ 1` provided the
selector never reports done before the sequence is exhausted; with an
early-terminating selector, larger batches can feed further same-batch assets
after coverage completes, changing `assets_used`. -/
theorem composite_concurrency_amended {α τ σ : Type} (assets : List α)
    (fetch : α → FetchOutcome τ) (feed : σ → τ → σ) (isDone : σ → Bool) (s0 : σ)
    (hdone : ∀ s, isDone s = false) (n1 n2 : Nat) (h1 : 1 ≤ n1) (h2 : 1 ≤ n2) :
    composite assets fetch feed isDone s0 n1 =
      composite assets fetch feed isDone s0 n2 := by
  rw [composite, composite, runBatches_no_done feed isDone fetch hdone,
    runBatches_no_done feed isDone fetch hdone, chunkList_join n1 h1,
    chunkList_join n2 h2]

/-- Witness for C6 (amended): the Mean selector is never done, so batch sizes
1 and 3 give identical results on the spec §8 scenario. -/
theorem composite_concurrency_amended_witness :
    composite [0, 1, 2] scenarioFetch meanFeed meanIsDone (meanInit 1 4 4) 1 =
      composite [0, 1, 2] scenarioFetch meanFeed meanIsDone (meanInit 1 4 4) 3 :=
  composite_concurrency_amended [0, 1, 2] scenarioFetch meanFeed meanIsDone
    (meanInit 1 4 4) (fun s => rfl) 1 3 (by decide) (by decide)

/-- C7: composite applied to an empty asset sequence — or to one in which
every asset failed or was outside bounds — returns, without error, the
selector's fresh accumulator (whose mask is all-invalid for the First
policy's ImageTile-shaped accumulator) and an empty `assets_used`. -/
theorem composite_empty_input {b r c : Nat} {α : Type} (assets : List α)
    (fetch : α → FetchOutcome (MaskedTile b r c)) (n : Nat) (hn : 1 ≤ n)
    (hfail : ∀ a ∈ assets, (fetch a).isSuccess = false) :
    composite assets fetch firstFeed firstIsDone (firstInit b r c) n =
      (firstInit b r c, []) ∧
    (composite assets fetch firstFeed firstIsDone (firstInit b r c) n).2 = [] ∧
    ∀ i j, (composite assets fetch firstFeed firstIsDone
      (firstInit b r c) n).1.mask i j = true := by
  have hmem : ∀ batch ∈ chunkList n assets, ∀ a ∈ batch,
      (fetch a).isSuccess = false := by
    intro batch hb a ha
    refine hfail a ?_
    rw [← chunkList_join n hn assets]
    exact List.mem_flatten.2 ⟨batch, hb, ha⟩
  have hc : composite assets fetch firstFeed firstIsDone (firstInit b r c) n =
      (firstInit b r c, []) :=
    runBatches_no_success firstFeed firstIsDone fetch (chunkList n assets)
      (firstInit b r c) hmem
  refine ⟨hc, by rw [hc], fun i j => ?_⟩
  rw [hc]
  rfl

/-- Witness for C7: a single always-failing asset yields empty `assets_used`
and an all-invalid mosaic mask; the empty asset sequence does too. -/
theorem composite_empty_input_witness :
    (composite ([] : List Nat) failFetch firstFeed firstIsDone
      (firstInit 1 1 1) 1).2 = [] ∧
    (composite [7] failFetch firstFeed firstIsDone
      (firstInit 1 1 1) 1).1.mask 0 0 = true :=
  ⟨(composite_empty_input ([] : List Nat) failFetch 1 (by decide) (by decide)).2.1,
    (composite_empty_input [7] failFetch 1 (by decide) (by decide)).2.2 0 0⟩

/-- Running-sum invariant of the Mean accumulator: after folding a tile list,
the per-pixel per-band total is the starting total plus the sum of the
contributions of the tiles valid at that pixel. -/
theorem foldl_meanFeed_total {b r c : Nat} :
    ∀ (tiles : List (MaskedTile b r c)) (s : MeanState b r c)
      (bi : Fin b) (i : Fin r) (j : Fin c),
      (tiles.foldl meanFeed s).total bi i j =
        s.total bi i j +
          ((tiles.filter fun t => t.mask i j = false).map fun t => t.data bi i j).sum := by
  intro tiles
  induction tiles with
  | nil => intro s bi i j; simp
  | cons t ts ih =>
    intro s bi i j
    rw [List.foldl_cons, ih (meanFeed s t) bi i j]
    by_cases hm : t.mask i j = true
    · simp [meanFeed, hm, List.filter_cons]
    · simp only [Bool.not_eq_true] at hm
      simp [meanFeed, hm, List.filter_cons, add_assoc]

/-- Counting invariant of the Mean accumulator: after folding a tile list,
the per-pixel count is the starting count plus the number of tiles valid at
that pixel. -/
theorem foldl_meanFeed_count {b r c : Nat} :
    ∀ (tiles : List (MaskedTile b r c)) (s : MeanState b r c)
      (i : Fin r) (j : Fin c),
      (tiles.foldl meanFeed s).count i j =
        s.count i j + (tiles.filter fun t => t.mask i j = false).length := by
  intro tiles
  induction tiles with
  | nil => intro s i j; simp
  | cons t ts ih =>
    intro s i j
    rw [List.foldl_cons, ih (meanFeed s t) i j]
    by_cases hm : t.mask i j = true
    · simp [meanFeed, hm, List.filter_cons]
    · simp only [Bool.not_eq_true] at hm
      simp [meanFeed, hm, List.filter_cons]
      omega

/-- Counterexample for C8: in the spec §8 scenario (tiles A, B fully valid,
tile C all-invalid, Mean policy), the composite operation appends every
successfully fetched asset — including C, whose tile contributes nothing —
so `assets_used` is not `[A, B]`. -/
theorem mean_scenario_assets_used_cex :
    (composite [0, 1, 2] scenarioFetch meanFeed meanIsDone
      (meanInit 1 4 4) 1).2 ≠ [0, 1] := by
  decide

/-- Per-pixel characterisation of the Mean policy result: the output value is
the arithmetic mean of the tiles valid at the pixel (when there is at least
one), and the output pixel is valid iff some tile is valid there. -/
theorem mean_policy_pixel (b r c : Nat) (tiles : List (MaskedTile b r c))
    (i : Fin r) (j : Fin c) :
    ((tiles.filter fun t => t.mask i j = false) ≠ [] →
      ∀ bi, (meanResult (tiles.foldl meanFeed (meanInit b r c))).data bi i j =
        ((tiles.filter fun t => t.mask i j = false).map fun t => t.data bi i j).sum /
          (((tiles.filter fun t => t.mask i j = false).length : ℚ))) ∧
    ((meanResult (tiles.foldl meanFeed (meanInit b r c))).mask i j = false ↔
      (tiles.filter fun t => t.mask i j = false) ≠ []) := by
  have hlen : (tiles.foldl meanFeed (meanInit b r c)).count i j =
      (tiles.filter fun t => t.mask i j = false).length := by
    simpa [meanInit] using foldl_meanFeed_count tiles (meanInit b r c) i j
  constructor
  · intro hne bi
    have hd := foldl_meanFeed_total tiles (meanInit b r c) bi i j
    rw [show (meanInit b r c).total bi i j = 0 from rfl, zero_add] at hd
    have hlenne : (tiles.filter fun t => t.mask i j = false).length ≠ 0 := by
      intro h0
      exact hne (List.length_eq_zero.mp h0)
    show (if (tiles.foldl meanFeed (meanInit b r c)).count i j = 0 then 0
        else (tiles.foldl meanFeed (meanInit b r c)).total bi i j /
          (((tiles.foldl meanFeed (meanInit b r c)).count i j : ℚ))) = _
    rw [hlen, if_neg hlenne, hd]
  · show decide ((tiles.foldl meanFeed (meanInit b r c)).count i j = 0) = false ↔ _
    rw [hlen]
    simp [List.length_eq_zero]

/-- C8 (amended): per-pixel Mean correctness — the Mean policy's output at a
pixel is the arithmetic mean of the values of the tiles valid there, and the
output pixel is valid iff some tile is valid there; in the spec §8 scenario
the Mean mosaic over tiles A (all 10), B (all 20) and all-invalid C has every
pixel equal to 15 with an all-valid mask, and `assets_used` is `[0, 1, 2]` —
asset C is included (with zero effect) because its fetch succeeded, not
excluded as the claim requires. -/
theorem mean_correctness_amended :
    (∀ (b r c : Nat) (tiles : List (MaskedTile b r c)) (i : Fin r) (j : Fin c),
      ((tiles.filter fun t => t.mask i j = false) ≠ [] →
        ∀ bi, (meanResult (tiles.foldl meanFeed (meanInit b r c))).data bi i j =
          ((tiles.filter fun t => t.mask i j = false).map fun t => t.data bi i j).sum /
            (((tiles.filter fun t => t.mask i j = false).length : ℚ))) ∧
      ((meanResult (tiles.foldl meanFeed (meanInit b r c))).mask i j = false ↔
        (tiles.filter fun t => t.mask i j = false) ≠ [])) ∧
    (composite [0, 1, 2] scenarioFetch meanFeed meanIsDone
      (meanInit 1 4 4) 1).2 = [0, 1, 2] ∧
    (∀ (bi : Fin 1) (i j : Fin 4),
      (meanResult (composite [0, 1, 2] scenarioFetch meanFeed meanIsDone
        (meanInit 1 4 4) 1).1).data bi i j = 15) ∧
    (∀ i j : Fin 4,
      (meanResult (composite [0, 1, 2] scenarioFetch meanFeed meanIsDone
        (meanInit 1 4 4) 1).1).mask i j = false) := by
  have hstate : (composite [0, 1, 2] scenarioFetch meanFeed meanIsDone
      (meanInit 1 4 4) 1).1 =
      List.foldl meanFeed (meanInit 1 4 4) [tileA, tileB, tileC] := rfl
  have hne : ∀ (i j : Fin 4),
      ([tileA, tileB, tileC].filter fun t => t.mask i j = false) ≠ [] := by
    intro i j
    exact fun h => List.noConfusion h
  refine ⟨mean_policy_pixel, rfl, ?_, ?_⟩
  · intro bi i j
    rw [hstate, (mean_policy_pixel 1 4 4 [tileA, tileB, tileC] i j).1 (hne i j) bi]
    show ((10 : ℚ) + (20 + 0)) / ((2 : Nat) : ℚ) = 15
    norm_num
  · intro i j
    rw [hstate]
    exact (mean_policy_pixel 1 4 4 [tileA, tileB, tileC] i j).2.mpr (hne i j)

/-- Witness for C8 (amended): the general mean rule evaluated on a single
fully valid tile of value 1 gives 1. -/
theorem mean_correctness_amended_witness :
    (meanResult (List.foldl meanFeed (meanInit 1 1 1) [unitTile])).data 0 0 0 = 1 := by
  rw [(mean_correctness_amended.1 1 1 1 [unitTile] 0 0).1 (by decide) 0]
  show ((1 : ℚ) + 0) / ((1 : Nat) : ℚ) = 1
  norm_num

/-- Pixelwise characterisation of the `CustomFourthBandH` accumulator: after
feeding a nonempty tile list, at each pixel the accumulator is invalid when
every tile is invalid there, and otherwise holds, validly, the full band
column of the earliest-fed tile whose decision-band (last band) value is
maximal among the tiles valid at that pixel. -/
theorem CustomFourthBandH.feedList_pixel {b r c : Nat} (i : Fin r) (j : Fin c) :
    ∀ tiles : List (MaskedTile (b + 1) r c), tiles ≠ [] →
      ∃ m, CustomFourthBandH.feedList tiles = some m ∧
        ((∀ x ∈ tiles, x.mask i j = true) → m.mask i j = true) ∧
        ((∃ x ∈ tiles, x.mask i j = false) → m.mask i j = false ∧
          ∃ (k : Nat) (hk : k < tiles.length),
            (tiles.get ⟨k, hk⟩).mask i j = false ∧
            (∀ bi, m.data bi i j = (tiles.get ⟨k, hk⟩).data bi i j) ∧
            (∀ (k2 : Nat) (hk2 : k2 < tiles.length),
              (tiles.get ⟨k2, hk2⟩).mask i j = false →
              (tiles.get ⟨k2, hk2⟩).data (Fin.last b) i j ≤
                (tiles.get ⟨k, hk⟩).data (Fin.last b) i j) ∧
            (∀ (k2 : Nat) (hk2 : k2 < tiles.length), k2 < k →
              (tiles.get ⟨k2, hk2⟩).mask i j = false →
              (tiles.get ⟨k2, hk2⟩).data (Fin.last b) i j <
                (tiles.get ⟨k, hk⟩).data (Fin.last b) i j)) := by
  intro tiles
  induction tiles using List.reverseRecOn with
  | nil => intro h; exact absurd rfl h
  | append_singleton l t ih =>
    intro _
    have hfl : feedList (l ++ [t]) = feed (feedList l) t := by
      simp [feedList, List.foldl_append]
    have hlen : (l ++ [t]).length = l.length + 1 := by simp
    have hgetl : ∀ (k : Nat) (hk : k < l.length) (hkL : k < (l ++ [t]).length),
        (l ++ [t]).get ⟨k, hkL⟩ = l.get ⟨k, hk⟩ := by
      intro k hk hkL
      simp only [List.get_eq_getElem]
      exact List.getElem_append_left hk
    have hgett : ∀ (hk : l.length < (l ++ [t]).length),
        (l ++ [t]).get ⟨l.length, hk⟩ = t := by
      intro hk
      simp only [List.get_eq_getElem]
      exact List.getElem_concat_length l t l.length rfl hk
    rcases eq_or_ne l [] with hl | hl
    · subst hl
      simp only [List.nil_append]
      refine ⟨t, rfl, ?_, ?_⟩
      · intro hall
        exact hall t (List.mem_singleton_self t)
      · intro hex
        have htv : t.mask i j = false := by
          obtain ⟨x, hx, hxm⟩ := hex
          rw [List.mem_singleton] at hx
          subst hx
          exact hxm
        refine ⟨htv, 0, by simp, by simpa using htv, fun bi => by simp, ?_, ?_⟩
        · intro k2 hk2 hv2
          have hk20 : k2 = 0 := by simp at hk2; omega
          subst hk20
          simp
        · intro k2 hk2 hlt2 hv2
          exact absurd hlt2 (Nat.not_lt_zero k2)
    · obtain ⟨m, hm, hallm, hexm⟩ := ih hl
      rw [hm] at hfl
      refine ⟨merge m t, hfl, ?_, ?_⟩
      · intro hall
        have hmm : m.mask i j = true :=
          hallm fun x hx => hall x (List.mem_append_left [t] hx)
        have hmt : t.mask i j = true :=
          hall t (List.mem_append_right l (List.mem_singleton_self t))
        rw [(merge_acc_invalid m t i j hmm).1]
        exact hmt
      · intro hex
        by_cases hexl : ∃ x ∈ l, x.mask i j = false
        · obtain ⟨hmaskm, k, hk, hkv, hkd, hkmax, hkstr⟩ := hexm hexl
          have hkL : k < (l ++ [t]).length := by rw [hlen]; omega
          by_cases htm : t.mask i j = true
          · have hmg := merge_arr_invalid m t i j hmaskm htm
            refine ⟨hmg.1, k, hkL, ?_, ?_, ?_, ?_⟩
            · rw [hgetl k hk hkL]; exact hkv
            · intro bi; rw [hgetl k hk hkL, hmg.2 bi]; exact hkd bi
            · intro k2 hk2 hv2
              rw [hlen] at hk2
              have hk2L : k2 < (l ++ [t]).length := by rw [hlen]; omega
              rcases (by omega : k2 < l.length ∨ k2 = l.length) with hlt2 | heq2
              · rw [hgetl k2 hlt2 hk2L] at hv2 ⊢
                rw [hgetl k hk hkL]
                exact hkmax k2 hlt2 hv2
              · subst heq2
                rw [hgett hk2L] at hv2
                rw [htm] at hv2
                exact absurd hv2 (fun h => Bool.noConfusion h)
            · intro k2 hk2 hlt2 hv2
              have hlt2' : k2 < l.length := by omega
              have hk2L : k2 < (l ++ [t]).length := hk2
              rw [hgetl k2 hlt2' hk2L] at hv2
              rw [hgetl k2 hlt2' hk2L, hgetl k hk hkL]
              exact hkstr k2 hlt2' hlt2 hv2
          · have htv : t.mask i j = false := by simpa using htm
            rcases le_or_lt (t.data (Fin.last b) i j) (m.data (Fin.last b) i j) with hle | hlt
            · have hmg := merge_ge m t i j hmaskm htv hle
              refine ⟨hmg.1, k, hkL, ?_, ?_, ?_, ?_⟩
              · rw [hgetl k hk hkL]; exact hkv
              · intro bi; rw [hgetl k hk hkL, hmg.2 bi]; exact hkd bi
              · intro k2 hk2 hv2
                have hk2L : k2 < (l ++ [t]).length := hk2
                rw [hlen] at hk2
                rcases (by omega : k2 < l.length ∨ k2 = l.length) with hlt2 | heq2
                · rw [hgetl k2 hlt2 hk2L] at hv2 ⊢
                  rw [hgetl k hk hkL]
                  exact hkmax k2 hlt2 hv2
                · subst heq2
                  rw [hgett hk2L, hgetl k hk hkL]
                  rw [← hkd (Fin.last b)]
                  exact hle
              · intro k2 hk2 hlt2 hv2
                have hlt2' : k2 < l.length := by omega
                have hk2L : k2 < (l ++ [t]).length := hk2
                rw [hgetl k2 hlt2' hk2L] at hv2
                rw [hgetl k2 hlt2' hk2L, hgetl k hk hkL]
                exact hkstr k2 hlt2' hlt2 hv2
            · have hmg := merge_lt m t i j hmaskm htv hlt
              have hnL : l.length < (l ++ [t]).length := by rw [hlen]; omega
              refine ⟨hmg.1, l.length, hnL, ?_, ?_, ?_, ?_⟩
              · rw [hgett hnL]; exact htv
              · intro bi; rw [hgett hnL, hmg.2 bi]
              · intro k2 hk2 hv2
                have hk2L : k2 < (l ++ [t]).length := hk2
                rw [hlen] at hk2
                rw [hgett hnL]
                rcases (by omega : k2 < l.length ∨ k2 = l.length) with hlt2 | heq2
                · rw [hgetl k2 hlt2 hk2L] at hv2 ⊢
                  have h1 := hkmax k2 hlt2 hv2
                  rw [← hkd (Fin.last b)] at h1
                  exact le_of_lt (lt_of_le_of_lt h1 hlt)
                · subst heq2
                  rw [hgett hk2L]
              · intro k2 hk2 hlt2 hv2
                have hk2L : k2 < (l ++ [t]).length := hk2
                rw [hgetl k2 hlt2 hk2L] at hv2
                rw [hgetl k2 hlt2 hk2L, hgett hnL]
                have h1 := hkmax k2 hlt2 hv2
                rw [← hkd (Fin.last b)] at h1
                exact lt_of_le_of_lt h1 hlt
        · have hmm : m.mask i j = true := hallm fun x hx => by
            cases hxm : x.mask i j with
            | false => exact absurd ⟨x, hx, hxm⟩ hexl
            | true => rfl
          have htv : t.mask i j = false := by
            obtain ⟨x, hx, hxm⟩ := hex
            rcases List.mem_append.mp hx with hxl | hxt
            · exact absurd ⟨x, hxl, hxm⟩ hexl
            · rw [List.mem_singleton] at hxt
              subst hxt
              exact hxm
          have hmg := merge_acc_invalid m t i j hmm
          have hnL : l.length < (l ++ [t]).length := by rw [hlen]; omega
          refine ⟨by rw [hmg.1]; exact htv, l.length, hnL, ?_, ?_, ?_, ?_⟩
          · rw [hgett hnL]; exact htv
          · intro bi; rw [hgett hnL, hmg.2 bi]
          · intro k2 hk2 hv2
            have hk2L : k2 < (l ++ [t]).length := hk2
            rw [hlen] at hk2
            rw [hgett hnL]
            rcases (by omega : k2 < l.length ∨ k2 = l.length) with hlt2 | heq2
            · rw [hgetl k2 hlt2 hk2L] at hv2
              exact absurd ⟨l.get ⟨k2, hlt2⟩, List.get_mem l k2 hlt2, hv2⟩ hexl
            · subst heq2
              rw [hgett hk2L]
          · intro k2 hk2 hlt2 hv2
            rw [hgetl k2 hlt2 hk2] at hv2
            exact absurd ⟨l.get ⟨k2, hlt2⟩, List.get_mem l k2 hlt2, hv2⟩ hexl

/-- C1: highest-policy per-pixel rule of `CustomFourthBandH` — for every
sequence of fed tiles and every pixel with at least one valid contribution,
the final accumulator is valid there and holds (across all bands) the values
of the tile whose last-band (decision) value is maximal among the tiles valid
at that pixel, ties broken in favour of the earliest-fed tile: every valid
tile's decision value is at most the selected one's, and every valid
earlier-fed tile's is strictly below it (a later tile only replaces an
already-valid pixel when its decision value strictly exceeds the
accumulator's). -/
theorem customFourthBandH_highest_rule (b r c : Nat)
    (tiles : List (MaskedTile (b + 1) r c)) (i : Fin r) (j : Fin c)
    (hvalid : ∃ x ∈ tiles, x.mask i j = false) :
    ∃ m, CustomFourthBandH.feedList tiles = some m ∧ m.mask i j = false ∧
      ∃ (k : Nat) (hk : k < tiles.length),
        (tiles.get ⟨k, hk⟩).mask i j = false ∧
        (∀ bi, m.data bi i j = (tiles.get ⟨k, hk⟩).data bi i j) ∧
        (∀ (k2 : Nat) (hk2 : k2 < tiles.length),
          (tiles.get ⟨k2, hk2⟩).mask i j = false →
          (tiles.get ⟨k2, hk2⟩).data (Fin.last b) i j ≤
            (tiles.get ⟨k, hk⟩).data (Fin.last b) i j) ∧
        (∀ (k2 : Nat) (hk2 : k2 < tiles.length), k2 < k →
          (tiles.get ⟨k2, hk2⟩).mask i j = false →
          (tiles.get ⟨k2, hk2⟩).data (Fin.last b) i j <
            (tiles.get ⟨k, hk⟩).data (Fin.last b) i j) := by
  have hne : tiles ≠ [] := by
    obtain ⟨x, hx, _⟩ := hvalid
    exact List.ne_nil_of_mem hx
  obtain ⟨m, hm, _, hex⟩ := CustomFourthBandH.feedList_pixel i j tiles hne
  obtain ⟨hmask, k, hk, props⟩ := hex hvalid
  exact ⟨m, hm, hmask, k, hk, props⟩

/-- Witness for C1: two fully valid one-pixel tiles with decision values 5
then 7. -/
theorem customFourthBandH_highest_rule_witness :
    ∃ m, CustomFourthBandH.feedList [loTile2, hiTile2] = some m ∧ m.mask 0 0 = false ∧
      ∃ (k : Nat) (hk : k < ([loTile2, hiTile2] : List (MaskedTile 2 1 1)).length),
        (([loTile2, hiTile2] : List (MaskedTile 2 1 1)).get ⟨k, hk⟩).mask 0 0 = false ∧
        (∀ bi, m.data bi 0 0 =
          (([loTile2, hiTile2] : List (MaskedTile 2 1 1)).get ⟨k, hk⟩).data bi 0 0) ∧
        (∀ (k2 : Nat) (hk2 : k2 < ([loTile2, hiTile2] : List (MaskedTile 2 1 1)).length),
          (([loTile2, hiTile2] : List (MaskedTile 2 1 1)).get ⟨k2, hk2⟩).mask 0 0 = false →
          (([loTile2, hiTile2] : List (MaskedTile 2 1 1)).get ⟨k2, hk2⟩).data (Fin.last 1) 0 0 ≤
            (([loTile2, hiTile2] : List (MaskedTile 2 1 1)).get ⟨k, hk⟩).data (Fin.last 1) 0 0) ∧
        (∀ (k2 : Nat) (hk2 : k2 < ([loTile2, hiTile2] : List (MaskedTile 2 1 1)).length),
          k2 < k →
          (([loTile2, hiTile2] : List (MaskedTile 2 1 1)).get ⟨k2, hk2⟩).mask 0 0 = false →
          (([loTile2, hiTile2] : List (MaskedTile 2 1 1)).get ⟨k2, hk2⟩).data (Fin.last 1) 0 0 <
            (([loTile2, hiTile2] : List (MaskedTile 2 1 1)).get ⟨k, hk⟩).data (Fin.last 1) 0 0) :=
  customFourthBandH_highest_rule 1 1 1 [loTile2, hiTile2] 0 0 (by decide)
